import Mathlib

/-!
# RetroLM core: shallow embedding and verification

Shallow embedding of the RetroLM inference engine's core (tensor primitives,
layer primitives, attention with key/value cache, transformer forward pass,
temperature sampling, and the interactive generation loop), translated from
the C sources (`matrix.c`, `matrix_ops.c`, `activations.c`, `layers.c`,
`sampling.c`, `loader.c`, `chat.c` and the full matrix implementation
variant).

Modelling conventions:
* IEEE-754 single-precision floats are modelled as exact rationals `ℚ`.
  The transcendental `expf` is an abstract parameter `e : ℚ → ℚ`; theorems
  that need it assume only its positivity.  The scale factor
  `1.0f / sqrtf(embed)` is an abstract parameter `sc : ℚ`.
* `-HUGE_VALF` (negative infinity, produced by the causal mask) is modelled
  by `⊥` in `WithBot ℚ`, with `expf (-inf) = 0`.
* `throw(msg, kind)` terminates the process; fallible operations are
  embedded as `Except Err`.  Allocation is assumed to succeed except where
  a claim is about allocation failure, where the outcome is an explicit
  `Bool` parameter.
* Unsigned 32-bit arithmetic is `Nat`; the one place where wrap-around can
  matter (`pos - 1` in the generation loop) uses an explicit `% 2^32`.
-/

set_option autoImplicit false

deriving instance DecidableEq for Except

namespace RetroLM

/-- Error taxonomy from `exceptions.h` (documented variant). -/
inductive Err where
  | invalidInput
  | indexError
  | memoryError
  | fileError
deriving DecidableEq, Repr

/-- Row-major 2-D array carrying its row and column counts, from
`struct Matrix2D` / `struct Matrix2D_UInt` in `matrix.h` (the element type
is a parameter: `ℚ` for float matrices, `ℕ` for index matrices). -/
structure Mat (α : Type) where
  r : ℕ
  c : ℕ
  data : List α
deriving DecidableEq, Repr

/-- Element read `m->data[i]`: in-bounds reads of a well-formed matrix hit
the stored value; the default is only reachable from out-of-bounds C code. -/
def qget (l : List ℚ) (i : ℕ) : ℚ := l.getD i 0

/-- Element read for index (unsigned) matrices. -/
def nget (l : List ℕ) (i : ℕ) : ℕ := l.getD i 0

/-- Shared `mat_new` shape check (`matrix.c` lines 9-20 and the full
variant lines 12-23): zero rows or zero columns is `InvalidInput`. -/
def mkChecked {α : Type} (r c : ℕ) (data : List α) : Except Err (Mat α) :=
  if r = 0 then .error .invalidInput
  else if c = 0 then .error .invalidInput
  else .ok ⟨r, c, data⟩

/-- `mat_new(r, c)`: zero-initialised float matrix. -/
def matNew (r c : ℕ) : Except Err (Mat ℚ) :=
  mkChecked r c (List.replicate (r * c) (0 : ℚ))

/-- `mat_uint_new(r, c)`: zero-initialised index matrix. -/
def matUintNew (r c : ℕ) : Except Err (Mat ℕ) :=
  mkChecked r c (List.replicate (r * c) (0 : ℕ))

/-- `indices_new(n)`: the 1×n index vector `0, 1, …, n-1`; `n = 0` is
`InvalidInput`. -/
def indicesNew (n : ℕ) : Except Err (Mat ℕ) :=
  if n = 0 then .error .invalidInput
  else (matUintNew 1 n).map (fun m => ⟨m.r, m.c, List.range n⟩)

/-- `mat_mul(m1, m2)`: dimension check then `_matmul`.  The C kernel
accumulates each dot product with 4× loop unrolling; over exact rationals
that reassociation equals the plain left-to-right sum used here. -/
def matMul (m1 m2 : Mat ℚ) : Except Err (Mat ℚ) :=
  if m1.c ≠ m2.r then .error .invalidInput
  else
    mkChecked m1.r m2.c <|
      (List.range (m1.r * m2.c)).map (fun t =>
        let i := t / m2.c
        let j := t % m2.c
        ((List.range m1.c).map (fun k =>
          qget m1.data (i * m1.c + k) * qget m2.data (k * m2.c + j))).sum)

/-- Shared shape validation and broadcast dispatch of `mat_add`, `mat_sub`
and `mat_div` (full matrix variant): the four checks and the three data
paths (`_matXXX`, `_matXXX_rowbroadcast` via `i % c`, `_matXXX_colbroadcast`
via `i / c`) are textually identical across the three C functions and are
shared here through the element operation `f`. -/
def matBinOp (f : ℚ → ℚ → ℚ) (m1 m2 : Mat ℚ) : Except Err (Mat ℚ) :=
  if m2.r = 1 ∧ m1.c ≠ m2.c then .error .invalidInput
  else if m2.c = 1 ∧ m1.r ≠ m2.r then .error .invalidInput
  else if m2.r ≠ 1 ∧ m1.r ≠ m2.r then .error .invalidInput
  else if m2.c ≠ 1 ∧ m1.c ≠ m2.c then .error .invalidInput
  else
    mkChecked m1.r m1.c <|
      if m1.r = m2.r ∧ m1.c = m2.c then
        (List.range (m1.r * m1.c)).map (fun i =>
          f (qget m1.data i) (qget m2.data i))
      else if m2.r = 1 then
        (List.range (m1.r * m1.c)).map (fun i =>
          f (qget m1.data i) (qget m2.data (i % m1.c)))
      else
        (List.range (m1.r * m1.c)).map (fun i =>
          f (qget m1.data i) (qget m2.data (i / m1.c)))

/-- `mat_add`. -/
def matAdd (m1 m2 : Mat ℚ) : Except Err (Mat ℚ) := matBinOp (· + ·) m1 m2

/-- `mat_sub`. -/
def matSub (m1 m2 : Mat ℚ) : Except Err (Mat ℚ) := matBinOp (· - ·) m1 m2

/-- `mat_div`. -/
def matDiv (m1 m2 : Mat ℚ) : Except Err (Mat ℚ) := matBinOp (· / ·) m1 m2

/-- `mat_exp` / `_matexp`: element-wise `expf`, with `expf` abstracted as
the parameter `e`. -/
def matExp (e : ℚ → ℚ) (m : Mat ℚ) : Except Err (Mat ℚ) :=
  mkChecked m.r m.c ((List.range (m.r * m.c)).map (fun i => e (qget m.data i)))

/-- Row sum `_matsum_rowwise` for one row. -/
def rowSum (m : Mat ℚ) (i : ℕ) : ℚ :=
  ((List.range m.c).map (fun j => qget m.data (i * m.c + j))).sum

/-- Row maximum `_matmax_rowwise` for one row: start from the first
element, then fold the strict-greater update (equal to `max`). -/
def rowMax (m : Mat ℚ) (i : ℕ) : ℚ :=
  ((List.range (m.c - 1)).map (fun j => qget m.data (i * m.c + (j + 1)))).foldl
    max (qget m.data (i * m.c))

/-- `mat_sum(m, dim)`: `dim > 1` is `InvalidInput`; `dim = 0` reduces
columns to a `[1, c]` row, `dim = 1` reduces rows to a `[r, 1]` column. -/
def matSum (m : Mat ℚ) (dim : ℕ) : Except Err (Mat ℚ) :=
  if 1 < dim then .error .invalidInput
  else if dim = 0 then
    mkChecked 1 m.c ((List.range m.c).map (fun j =>
      ((List.range m.r).map (fun i => qget m.data (i * m.c + j))).sum))
  else
    mkChecked m.r 1 ((List.range m.r).map (fun i => rowSum m i))

/-- `mat_max(m, dim)`: same dispatch as `mat_sum`. -/
def matMax (m : Mat ℚ) (dim : ℕ) : Except Err (Mat ℚ) :=
  if 1 < dim then .error .invalidInput
  else if dim = 0 then
    mkChecked 1 m.c ((List.range m.c).map (fun j =>
      ((List.range (m.r - 1)).map (fun i => qget m.data ((i + 1) * m.c + j))).foldl
        max (qget m.data j)))
  else
    mkChecked m.r 1 ((List.range m.r).map (fun i => rowMax m i))

/-- `mat_scale(m, α)` / `_matscale`: in-place scaling, embedded as the
scaled copy. -/
def matScale (alpha : ℚ) (m : Mat ℚ) : Mat ℚ :=
  ⟨m.r, m.c, (List.range (m.r * m.c)).map (fun i => qget m.data i * alpha)⟩

/-- `mat_transpose` / `_mattranspose`: freshly allocated transposed copy.
The C kernel visits cells in 8×8 blocks; every cell is written exactly
once, so the result is the plain transpose. -/
def matTranspose (m : Mat ℚ) : Except Err (Mat ℚ) :=
  mkChecked m.c m.r <|
    (List.range (m.c * m.r)).map (fun t =>
      qget m.data ((t % m.r) * m.c + t / m.r))

/-- `mat_copy`: `mat_new` followed by a `memcpy` of exactly `r*c` floats. -/
def matCopy (m : Mat ℚ) : Except Err (Mat ℚ) :=
  mkChecked m.r m.c ((List.range (m.r * m.c)).map (fun i => qget m.data i))

/-- `mat_clamp_min(m, lo)`: copy then `_matclampmin`. -/
def matClampMin (m : Mat ℚ) (lo : ℚ) : Except Err (Mat ℚ) :=
  mkChecked m.r m.c ((List.range (m.r * m.c)).map (fun i => max lo (qget m.data i)))

/-- `mat_rowselect(m, indices)` (full matrix variant lines 280-300): the
index tensor must be a single row, the number of requested indices must not
exceed the source row count, every index must be in range; then rows are
gathered by `memcpy`. -/
def matRowselect (m : Mat ℚ) (indices : Mat ℕ) : Except Err (Mat ℚ) :=
  if indices.r ≠ 1 then .error .invalidInput
  else if m.r < indices.c then .error .invalidInput
  else if (List.range indices.c).any (fun i => m.r ≤ nget indices.data i) then
    .error .invalidInput
  else
    mkChecked indices.c m.c <|
      (List.range (indices.c * m.c)).map (fun t =>
        qget m.data (nget indices.data (t / m.c) * m.c + t % m.c))

/-- `relu` from `activations.c`: `mat_clamp_min(m, 0)`. -/
def relu (m : Mat ℚ) : Except Err (Mat ℚ) := matClampMin m 0

/-- Row-wise numerically stabilised `softmax` from `activations.c`
lines 8-22: row max, broadcast subtraction, element-wise exp, row sum,
broadcast division. -/
def softmax (e : ℚ → ℚ) (m : Mat ℚ) : Except Err (Mat ℚ) := do
  let maxVals ← matMax m 1
  let shifted ← matSub m maxVals
  let num ← matExp e shifted
  let den ← matSum num 1
  matDiv num den

/-! ## Layer primitives (`layers.c`, documented variant) -/

/-- Linear layer parameters: weights `[out, in]`, bias `[1, out]`. -/
structure LinearParameters where
  weights : Mat ℚ
  bias : Mat ℚ
deriving DecidableEq, Repr

/-- Self-attention parameters: four linear projections. -/
structure SelfAttentionParameters where
  Wq : LinearParameters
  Wk : LinearParameters
  Wv : LinearParameters
  Wo : LinearParameters
deriving DecidableEq, Repr

/-- Embedding parameters: lookup table `[vocab, embed]`. -/
structure EmbeddingsParameters where
  weight_matrix : Mat ℚ
deriving DecidableEq, Repr

/-- `linear_forward` (`layers.c` lines 151-161): `y = x·Wᵀ + b` with the
bias added under the broadcast rules of `mat_add`. -/
def linearForward (x : Mat ℚ) (p : LinearParameters) : Except Err (Mat ℚ) := do
  let wt ← matTranspose p.weights
  let product ← matMul x wt
  matAdd product p.bias

/-- `embeddings_forward` (`layers.c` lines 304-307): row gather from the
embedding table. -/
def embeddingsForward (indices : Mat ℕ) (p : EmbeddingsParameters) : Except Err (Mat ℚ) :=
  matRowselect p.weight_matrix indices

/-- Transformer parameter aggregate from `transformer.h`/`loader.c`. -/
structure TransformerParameters where
  token_embed : EmbeddingsParameters
  pos_embed : Mat ℚ
  attn : SelfAttentionParameters
  W1 : LinearParameters
  W2 : LinearParameters
  lm_head : LinearParameters
deriving DecidableEq, Repr

/-! ## Weight loading (`loader.c`) -/

/-- The weight files of the model directory (§6 of the file format). -/
inductive WFile where
  | tokenEmbed | posEmbed
  | wqWeight | wqBias | wkWeight | wkBias | wvWeight | wvBias | woWeight | woBias
  | w1Weight | w1Bias | w2Weight | w2Bias
  | lmHeadBias
deriving DecidableEq, Repr

/-- `load_weight_matrix`: the file supplies a header `(R, C)` and exactly
`R*C` floats.  The directory is abstracted as a map from file to matrix;
reading normalises the payload to exactly `r*c` entries. -/
def loadWeightMatrix (env : WFile → Mat ℚ) (f : WFile) : Mat ℚ :=
  let m := env f
  ⟨m.r, m.c, (List.range (m.r * m.c)).map (fun i => qget m.data i)⟩

/-- `load_model_weights` (`loader.c` lines 56-130): loads every weight
file; the LM head's weight matrix is not read from disk but created by
`mat_copy` of the token-embedding matrix (weight tying, lines 120-127). -/
def loadModelWeights (env : WFile → Mat ℚ) : Except Err TransformerParameters := do
  let te := loadWeightMatrix env .tokenEmbed
  let tied ← matCopy te
  .ok
    { token_embed := ⟨te⟩
      pos_embed := loadWeightMatrix env .posEmbed
      attn :=
        { Wq := ⟨loadWeightMatrix env .wqWeight, loadWeightMatrix env .wqBias⟩
          Wk := ⟨loadWeightMatrix env .wkWeight, loadWeightMatrix env .wkBias⟩
          Wv := ⟨loadWeightMatrix env .wvWeight, loadWeightMatrix env .wvBias⟩
          Wo := ⟨loadWeightMatrix env .woWeight, loadWeightMatrix env .woBias⟩ }
      W1 := ⟨loadWeightMatrix env .w1Weight, loadWeightMatrix env .w1Bias⟩
      W2 := ⟨loadWeightMatrix env .w2Weight, loadWeightMatrix env .w2Bias⟩
      lm_head := ⟨tied, loadWeightMatrix env .lmHeadBias⟩ }

/-! ## Temperature sampling (`sampling.c`, non-destructive variant) -/

/-- Cumulative-sum walk of `sample_from_logits` lines 40-49: running
`cumsum`, returning the first index whose cumulative probability exceeds
the draw, with fallback `vocab_size - 1` when the walk falls through. -/
def sampleWalk (u : ℚ) : ℚ → ℕ → List ℚ → ℕ → ℕ
  | _, dflt, [], _ => dflt
  | cum, dflt, p :: rest, i =>
    if u < cum + p then i else sampleWalk u (cum + p) dflt rest (i + 1)

/-- `sample_from_logits` (`sampling.c` lines 5-53): temperature guard,
row max for stability, a scratch probability buffer (`malloc`, whose
outcome is the explicit `allocOk`; on failure the function returns token 0),
temperature-scaled exponentiation, normalisation, and the inverse-CDF walk
with the PRNG draw `u` standing for `rand() / RAND_MAX`.  The caller's
logits buffer is threaded through unchanged: the C body never writes
through `logits`. -/
def sampleFromLogits (e : ℚ → ℚ) (logits : List ℚ) (vocabSize : ℕ)
    (temperature : ℚ) (u : ℚ) (allocOk : Bool) : ℕ × List ℚ :=
  let temp := if temperature ≤ 0 then 1 else temperature
  let maxLogit :=
    ((List.range (vocabSize - 1)).map (fun i => qget logits (i + 1))).foldl
      max (qget logits 0)
  if allocOk = false then (0, logits)
  else
    let probs0 := (List.range vocabSize).map (fun i => e ((qget logits i - maxLogit) / temp))
    let s := probs0.sum
    let probs := probs0.map (fun p => p / s)
    (sampleWalk u 0 (vocabSize - 1) probs 0, logits)

/-! ## Attention block with key/value cache

The cached attention (`struct AttentionCache`, `attention_cache_new`,
`attention_cache_free` and the three-argument `attention_forward`) and the
four-argument `transformer_forward` are declared and called by `chat.c`
and the cached test variant, but their implementation files are not part
of the sources; they are modelled here from §4.3 and §4.4 of the
specification, reusing the repository's own primitives where they exist. -/

/-- Extended float value: `none` models `-HUGE_VALF` (negative infinity)
written by the causal mask; `some x` is a finite value. -/
abbrev QX := Option ℚ

/-- Float `max` over extended values (`-inf` loses against any finite). -/
def qxMax (a b : QX) : QX :=
  match a, b with
  | none, b => b
  | a, none => a
  | some x, some y => some (max x y)

/-- Float subtraction over extended values.  The case finite minus `-inf`
(IEEE `+inf`) is unreachable here: a masked score row always keeps its
diagonal entry finite, so a row maximum is never `-inf` while a finite
entry exists; it is mapped to `none` to keep the function total. -/
def qxSub (a b : QX) : QX :=
  match a, b with
  | none, _ => none
  | some _, none => none
  | some x, some y => some (x - y)

/-- `expf` over extended values: `expf(-inf) = 0`. -/
def qxExp (e : ℚ → ℚ) : QX → ℚ
  | none => 0
  | some x => e x

/-- Modelled from the spec: `AttentionCache`, a mutable pair of `[t, embed]`
matrices accumulating the keys and values seen so far (§4.3). -/
structure AttentionCache where
  K : Mat ℚ
  V : Mat ℚ
deriving DecidableEq, Repr

/-- Modelled from the spec: `attention_cache_new(embed)` — the empty cache,
both `K` and `V` of shape `[0, embed]` (the one construction allowed to
have zero rows, §3 and §4.1). -/
def attentionCacheNew (embed : ℕ) : AttentionCache :=
  ⟨⟨0, embed, []⟩, ⟨0, embed, []⟩⟩

/-- Modelled from the spec: `vstack` — vertical concatenation used to
append the new keys/values to the cache (§4.3 step 2); a column-count
mismatch is a shape error. -/
def vstack (m1 m2 : Mat ℚ) : Except Err (Mat ℚ) :=
  if m1.c ≠ m2.c then .error .invalidInput
  else .ok ⟨m1.r + m2.r, m1.c, m1.data ++ m2.data⟩

/-- Modelled from the spec: the causal mask (§4.3 step 6) — with `t`
cached rows, entry `(i, j)` of the `[n, t+n]` score matrix is set to
negative infinity exactly when `j > t + i`. -/
def maskScores (t : ℕ) (s : Mat ℚ) : Mat QX :=
  ⟨s.r, s.c,
    (List.range (s.r * s.c)).map (fun k =>
      if t + k / s.c < k % s.c then (none : QX)
      else some (qget s.data k))⟩

/-- Row `i` of a masked score matrix. -/
def mRow (m : Mat QX) (i : ℕ) : List QX :=
  (List.range m.c).map (fun j => m.data.getD (i * m.c + j) none)

/-- Maximum of row `i` of a masked score matrix (`-inf` loses against any
finite entry). -/
def mRowMax (m : Mat QX) (i : ℕ) : QX :=
  (mRow m i).foldl qxMax none

/-- Softmax denominator of row `i`: the sum of the exponentiated shifted
entries, masked entries contributing zero mass. -/
def mDen (e : ℚ → ℚ) (m : Mat QX) (i : ℕ) : ℚ :=
  ((mRow m i).map (fun v => qxExp e (qxSub v (mRowMax m i)))).sum

/-- Modelled from the spec: row-wise numerically stable softmax on masked
scores (§4.2, §4.3 step 7) — per row subtract the row maximum,
exponentiate (masked `-inf` entries contribute zero mass), and divide by
the row sum. -/
def maskedSoftmax (e : ℚ → ℚ) (m : Mat QX) : Mat ℚ :=
  ⟨m.r, m.c,
    (List.range (m.r * m.c)).map (fun k =>
      qxExp e (qxSub (m.data.getD k none) (mRowMax m (k / m.c))) / mDen e m (k / m.c))⟩

/-- Modelled from the spec: steps 1-3 of the cached attention forward pass
(§4.3) — project the new tokens with the repository's `linear_forward` and
extend the cache by vertical stacking. -/
def attnProj (x : Mat ℚ) (p : SelfAttentionParameters) (cache : AttentionCache) :
    Except Err (Mat ℚ × Mat ℚ × Mat ℚ) := do
  let q ← linearForward x p.Wq
  let kNew ← linearForward x p.Wk
  let vNew ← linearForward x p.Wv
  let kFull ← vstack cache.K kNew
  let vFull ← vstack cache.V vNew
  .ok (q, kFull, vFull)

/-- Modelled from the spec: steps 4-6 of the cached attention forward pass
(§4.3) — raw scores `Q·K_fullᵀ`, scaling by `sc` (the float
`1.0f / sqrtf(embed)`, abstracted since `√embed` is irrational), and the
causal mask at cache length `t = cache.K.r`. -/
def attnScores (sc : ℚ) (x : Mat ℚ) (p : SelfAttentionParameters) (cache : AttentionCache) :
    Except Err (Mat QX) := do
  let (q, kFull, _) ← attnProj x p cache
  let kT ← matTranspose kFull
  let s ← matMul q kT
  .ok (maskScores cache.K.r (matScale sc s))

/-- Modelled from the spec: the cached attention forward pass (§4.3) —
returns the output (with residual connection) together with the extended
cache, whose `K`/`V` now hold the stacked `[t + n, embed]` rows. -/
def cachedAttentionForward (e : ℚ → ℚ) (sc : ℚ) (x : Mat ℚ)
    (p : SelfAttentionParameters) (cache : AttentionCache) :
    Except Err (Mat ℚ × AttentionCache) := do
  let (q, kFull, vFull) ← attnProj x p cache
  let kT ← matTranspose kFull
  let s ← matMul q kT
  let a := maskedSoftmax e (maskScores cache.K.r (matScale sc s))
  let ctx ← matMul a vFull
  let o ← linearForward ctx p.Wo
  let out ← matAdd x o
  .ok (out, ⟨kFull, vFull⟩)

/-! ## Transformer forward pass with cache -/

/-- Modelled from the spec: the 1×n position-index tensor
`pos, pos+1, …, pos+n-1` used to select positional-embedding rows
(§4.4 step 2), built with the repository's `mat_uint_new`. -/
def posIndices (pos n : ℕ) : Except Err (Mat ℕ) :=
  (matUintNew 1 n).map (fun m => ⟨m.r, m.c, (List.range n).map (fun i => pos + i)⟩)

/-- Modelled from the spec: the positional-embedding step (§4.4 step 2) —
select rows `pos .. pos + n` from `pos_embed` with the repository's
`mat_rowselect`. -/
def posSelect (posEmbed : Mat ℚ) (pos n : ℕ) : Except Err (Mat ℚ) := do
  let idx ← posIndices pos n
  matRowselect posEmbed idx

/-- Modelled from the spec: the four-argument cached `transformer_forward`
called by `chat.c` (§4.4) — single-row batch check, token embeddings,
positional embeddings at absolute position `pos`, cached attention,
feed-forward with residual, LM head. -/
def transformerForwardCached (e : ℚ → ℚ) (sc : ℚ) (x : Mat ℕ)
    (p : TransformerParameters) (cache : AttentionCache) (pos : ℕ) :
    Except Err (Mat ℚ × AttentionCache) := do
  if 1 < x.r then .error .invalidInput
  else
    let x0 ← embeddingsForward x p.token_embed
    let pS ← posSelect p.pos_embed pos x.c
    let x1 ← matAdd x0 pS
    let (x2, cache') ← cachedAttentionForward e sc x1 p.attn cache
    let h0 ← linearForward x2 p.W1
    let h1 ← relu h0
    let h2 ← linearForward h1 p.W2
    let x3 ← matAdd x2 h2
    let logits ← linearForward x3 p.lm_head
    .ok (logits, cache')

/-! ## Generation loop (`chat.c`) -/

/-- Observation record of one decode-phase call to `transformer_forward`
in `generate_interactive` (`chat.c` lines 72-115): the position argument
passed, the cache row count at the moment of the call, the 1×1 input
tensor, the shape of the returned logits, and the token sequence held at
the call. -/
structure DecodeCall where
  posArg : ℕ
  cacheRows : ℕ
  input : Mat ℕ
  logitsR : ℕ
  logitsC : ℕ
  tokensAtCall : List ℕ
deriving DecidableEq, Repr

/-- Decode phase of `generate_interactive` (`chat.c` lines 72-115), one
iteration per unit of fuel (`max_tokens`).  Each iteration feeds the last
token as a 1×1 tensor at position argument `pos - 1` (C unsigned
arithmetic, hence the explicit wrap-around at `2^32`), samples with one
PRNG draw from `us`, stops on newline or a token `≥ 127`, and otherwise
appends the sampled token.  The per-iteration `malloc`s of `chat.c` are
assumed to succeed. -/
def decodeLoop (e : ℚ → ℚ) (sc : ℚ) (model : TransformerParameters)
    (vocabSize : ℕ) (temperature : ℚ) :
    ℕ → List ℚ → List ℕ → AttentionCache →
    Except Err (List DecodeCall × List ℕ × AttentionCache)
  | 0, _, tokens, cache => .ok ([], tokens, cache)
  | fuel + 1, us, tokens, cache =>
    let pos := tokens.length
    let posArg := (pos + 4294967295) % 4294967296
    let input : Mat ℕ := ⟨1, 1, [nget tokens posArg]⟩
    match transformerForwardCached e sc input model cache posArg with
    | .error err => .error err
    | .ok (logits, cache') =>
      let call : DecodeCall := ⟨posArg, cache.K.r, input, logits.r, logits.c, tokens⟩
      let next := (sampleFromLogits e logits.data vocabSize temperature (us.headD 0) true).1
      if next = 10 ∨ 127 ≤ next then .ok ([call], tokens, cache')
      else
        match decodeLoop e sc model vocabSize temperature fuel us.tail (tokens ++ [next]) cache' with
        | .error err => .error err
        | .ok (calls, toks, cf) => .ok (call :: calls, toks, cf)

/-- Core of `generate_interactive` (`chat.c` lines 39-118): create the
empty cache with `embed_dim = model->attn.Wq.weights.r`, prefill the whole
prompt at position 0 when it is non-empty (discarding the logits), then
run the decode phase. -/
def generateCore (e : ℚ → ℚ) (sc : ℚ) (model : TransformerParameters)
    (prompt : List ℕ) (maxTokens vocabSize : ℕ) (temperature : ℚ) (us : List ℚ) :
    Except Err (List DecodeCall × List ℕ × AttentionCache) :=
  let cache := attentionCacheNew model.attn.Wq.weights.r
  if prompt.length = 0 then
    decodeLoop e sc model vocabSize temperature maxTokens us prompt cache
  else
    match transformerForwardCached e sc ⟨1, prompt.length, prompt⟩ model cache 0 with
    | .error err => .error err
    | .ok (_, cache1) => decodeLoop e sc model vocabSize temperature maxTokens us prompt cache1

/-! ## Concrete instances used by the verification below

A zero-weight toy model (`embed = 2`, `ff = 2`, `vocab = 2`,
`max_seq_len = 4`) with the abstract exponential fixed to the constant-one
function and the scale factor fixed to 1; a one-file weight directory for
the loader. -/

/-- Zero 2×2 linear layer (weights `[2, 2]`, bias `[1, 2]`). -/
def zLin2 : LinearParameters := ⟨⟨2, 2, [0, 0, 0, 0]⟩, ⟨1, 2, [0, 0]⟩⟩

/-- Zero transformer with `embed = 2`, `ff = 2`, `vocab = 2`,
`max_seq_len = 4`. -/
def zModel2 : TransformerParameters :=
  { token_embed := ⟨⟨2, 2, [0, 0, 0, 0]⟩⟩
    pos_embed := ⟨4, 2, [0, 0, 0, 0, 0, 0, 0, 0]⟩
    attn := ⟨zLin2, zLin2, zLin2, zLin2⟩
    W1 := zLin2
    W2 := zLin2
    lm_head := zLin2 }

/-- Zero attention block with `embed = 1` for a single-row forward call. -/
def zAttn1 : SelfAttentionParameters :=
  ⟨⟨⟨1, 1, [0]⟩, ⟨1, 1, [0]⟩⟩, ⟨⟨1, 1, [0]⟩, ⟨1, 1, [0]⟩⟩,
   ⟨⟨1, 1, [0]⟩, ⟨1, 1, [0]⟩⟩, ⟨⟨1, 1, [0]⟩, ⟨1, 1, [0]⟩⟩⟩

/-- Zero attention block with `embed = 2` used for the masked-score
instance. -/
def zAttn2 : SelfAttentionParameters := ⟨zLin2, zLin2, zLin2, zLin2⟩

/-- One-value weight directory: every weight file holds the 1×1 matrix
`[2]` (so `vocab = embed = ff = 1`). -/
def wEnv : WFile → Mat ℚ := fun _ => ⟨1, 1, [2]⟩

/-- The parameter set produced by loading `wEnv`. -/
def wModel : TransformerParameters :=
  { token_embed := ⟨⟨1, 1, [2]⟩⟩
    pos_embed := ⟨1, 1, [2]⟩
    attn := ⟨⟨⟨1, 1, [2]⟩, ⟨1, 1, [2]⟩⟩, ⟨⟨1, 1, [2]⟩, ⟨1, 1, [2]⟩⟩,
             ⟨⟨1, 1, [2]⟩, ⟨1, 1, [2]⟩⟩, ⟨⟨1, 1, [2]⟩, ⟨1, 1, [2]⟩⟩⟩
    W1 := ⟨⟨1, 1, [2]⟩, ⟨1, 1, [2]⟩⟩
    W2 := ⟨⟨1, 1, [2]⟩, ⟨1, 1, [2]⟩⟩
    lm_head := ⟨⟨1, 1, [2]⟩, ⟨1, 1, [2]⟩⟩ }

/-! ## Helper lemmas -/

lemma getD_range_map {α : Type} (f : ℕ → α) (n k : ℕ) (d : α) (h : k < n) :
    ((List.range n).map f).getD k d = f k := by
  rw [List.getD_eq_getElem?_getD, List.getElem?_map, List.getElem?_range h]
  rfl

lemma sum_range_map (f : ℕ → ℚ) (n : ℕ) :
    ((List.range n).map f).sum = ∑ i ∈ Finset.range n, f i := by
  induction n with
  | zero => simp
  | succ m ih =>
    rw [List.range_succ, List.map_append, List.sum_append, Finset.sum_range_succ, ih]
    simp

lemma index_lt (i j r c : ℕ) (hi : i < r) (hj : j < c) : i * c + j < r * c := by
  calc i * c + j < i * c + c := by omega
  _ = (i + 1) * c := by ring
  _ ≤ r * c := Nat.mul_le_mul_right c hi

lemma flat_div (i j c : ℕ) (hj : j < c) : (i * c + j) / c = i := by
  rw [Nat.mul_comm, Nat.mul_add_div (by omega), Nat.div_eq_of_lt hj]
  omega

lemma flat_mod (i j c : ℕ) (hj : j < c) : (i * c + j) % c = j := by
  rw [Nat.mul_comm, Nat.mul_add_mod, Nat.mod_eq_of_lt hj]

lemma mkChecked_ok {α : Type} {r c : ℕ} {d : List α} {m : Mat α} :
    mkChecked r c d = .ok m ↔ r ≠ 0 ∧ c ≠ 0 ∧ m = ⟨r, c, d⟩ := by
  unfold mkChecked
  split_ifs <;> simp_all [eq_comm]

lemma mkChecked_err {α : Type} {r c : ℕ} {d : List α} {er : Err} :
    mkChecked r c d = .error er ↔ (r = 0 ∨ c = 0) ∧ er = .invalidInput := by
  unfold mkChecked
  split_ifs <;> simp_all [eq_comm]

lemma bind_ok_iff {α β : Type} {x : Except Err α} {f : α → Except Err β} {b : β} :
    (x >>= f) = .ok b ↔ ∃ a, x = .ok a ∧ f a = .ok b := by
  cases x <;> simp [Bind.bind, Except.bind]

lemma matTranspose_ok {m m' : Mat ℚ} (h : matTranspose m = .ok m') :
    m'.r = m.c ∧ m'.c = m.r ∧
      m'.data = (List.range (m.c * m.r)).map (fun t => qget m.data ((t % m.r) * m.c + t / m.r)) := by
  obtain ⟨-, -, rfl⟩ := mkChecked_ok.mp h
  exact ⟨rfl, rfl, rfl⟩

lemma matMul_ok {m1 m2 m' : Mat ℚ} (h : matMul m1 m2 = .ok m') :
    m1.c = m2.r ∧ m'.r = m1.r ∧ m'.c = m2.c ∧
      m'.data = (List.range (m1.r * m2.c)).map (fun t =>
        ((List.range m1.c).map (fun k =>
          qget m1.data (t / m2.c * m1.c + k) * qget m2.data (k * m2.c + t % m2.c))).sum) := by
  unfold matMul at h
  split_ifs at h with hc
  obtain ⟨-, -, rfl⟩ := mkChecked_ok.mp h
  exact ⟨by omega, rfl, rfl, rfl⟩

lemma matBinOp_ok {f : ℚ → ℚ → ℚ} {m1 m2 m' : Mat ℚ} (h : matBinOp f m1 m2 = .ok m') :
    m'.r = m1.r ∧ m'.c = m1.c := by
  unfold matBinOp at h
  split_ifs at h <;>
    first
      | simp at h
      | (obtain ⟨-, -, rfl⟩ := mkChecked_ok.mp h
         exact ⟨rfl, rfl⟩)

lemma matAdd_ok {m1 m2 m' : Mat ℚ} (h : matAdd m1 m2 = .ok m') :
    m'.r = m1.r ∧ m'.c = m1.c := matBinOp_ok h

lemma matRowselect_ok {m : Mat ℚ} {idx : Mat ℕ} {m' : Mat ℚ} (h : matRowselect m idx = .ok m') :
    m'.r = idx.c ∧ m'.c = m.c := by
  unfold matRowselect at h
  split_ifs at h
  obtain ⟨-, -, rfl⟩ := mkChecked_ok.mp h
  exact ⟨rfl, rfl⟩

lemma matClampMin_ok {m : Mat ℚ} {lo : ℚ} {m' : Mat ℚ} (h : matClampMin m lo = .ok m') :
    m'.r = m.r ∧ m'.c = m.c := by
  obtain ⟨-, -, rfl⟩ := mkChecked_ok.mp h
  exact ⟨rfl, rfl⟩

lemma linearForward_ok {x : Mat ℚ} {p : LinearParameters} {y : Mat ℚ}
    (h : linearForward x p = .ok y) : y.r = x.r ∧ y.c = p.weights.r := by
  unfold linearForward at h
  obtain ⟨wt, hwt, h⟩ := bind_ok_iff.mp h
  obtain ⟨prod, hprod, h⟩ := bind_ok_iff.mp h
  obtain ⟨hwr, hwc, -⟩ := matTranspose_ok hwt
  obtain ⟨-, hpr, hpc, -⟩ := matMul_ok hprod
  obtain ⟨hyr, hyc⟩ := matAdd_ok h
  omega

lemma vstack_ok {m1 m2 m' : Mat ℚ} (h : vstack m1 m2 = .ok m') :
    m'.r = m1.r + m2.r ∧ m'.c = m1.c ∧ m'.data = m1.data ++ m2.data := by
  unfold vstack at h
  split_ifs at h
  cases h
  exact ⟨rfl, rfl, rfl⟩

lemma attnProj_ok {x : Mat ℚ} {p : SelfAttentionParameters} {cache : AttentionCache}
    {q kf vf : Mat ℚ} (h : attnProj x p cache = .ok (q, kf, vf)) :
    q.r = x.r ∧ kf.r = cache.K.r + x.r ∧ vf.r = cache.V.r + x.r := by
  unfold attnProj at h
  obtain ⟨q', hq, h⟩ := bind_ok_iff.mp h
  obtain ⟨kn, hk, h⟩ := bind_ok_iff.mp h
  obtain ⟨vn, hv, h⟩ := bind_ok_iff.mp h
  obtain ⟨kf', hkf, h⟩ := bind_ok_iff.mp h
  obtain ⟨vf', hvf, h⟩ := bind_ok_iff.mp h
  simp only [Except.ok.injEq, Prod.mk.injEq] at h
  obtain ⟨rfl, rfl, rfl⟩ := h
  obtain ⟨hqr, -⟩ := linearForward_ok hq
  obtain ⟨hkr, -⟩ := linearForward_ok hk
  obtain ⟨hvr, -⟩ := linearForward_ok hv
  obtain ⟨hkfr, -, -⟩ := vstack_ok hkf
  obtain ⟨hvfr, -, -⟩ := vstack_ok hvf
  omega

lemma cachedAttentionForward_ok {e : ℚ → ℚ} {sc : ℚ} {x : Mat ℚ}
    {p : SelfAttentionParameters} {cache : AttentionCache} {out : Mat ℚ}
    {cache' : AttentionCache} (h : cachedAttentionForward e sc x p cache = .ok (out, cache')) :
    cache'.K.r = cache.K.r + x.r ∧ cache'.V.r = cache.V.r + x.r ∧
      out.r = x.r ∧ out.c = x.c := by
  unfold cachedAttentionForward at h
  obtain ⟨⟨q, kf, vf⟩, hproj, h⟩ := bind_ok_iff.mp h
  obtain ⟨kt, hkt, h⟩ := bind_ok_iff.mp h
  obtain ⟨s, hs, h⟩ := bind_ok_iff.mp h
  obtain ⟨ctx, hctx, h⟩ := bind_ok_iff.mp h
  obtain ⟨o, ho, h⟩ := bind_ok_iff.mp h
  obtain ⟨res, hres, h⟩ := bind_ok_iff.mp h
  simp only [Except.ok.injEq, Prod.mk.injEq] at h
  obtain ⟨rfl, rfl⟩ := h
  obtain ⟨-, hkfr, hvfr⟩ := attnProj_ok hproj
  obtain ⟨hrr, hrc⟩ := matAdd_ok hres
  exact ⟨hkfr, hvfr, hrr, hrc⟩

lemma transformerForwardCached_ok {e : ℚ → ℚ} {sc : ℚ} {x : Mat ℕ}
    {p : TransformerParameters} {cache : AttentionCache} {pos : ℕ} {lg : Mat ℚ}
    {cache' : AttentionCache}
    (h : transformerForwardCached e sc x p cache pos = .ok (lg, cache')) :
    cache'.K.r = cache.K.r + x.c ∧ cache'.V.r = cache.V.r + x.c ∧
      lg.r = x.c ∧ lg.c = p.lm_head.weights.r := by
  unfold transformerForwardCached at h
  by_cases hb : 1 < x.r
  · rw [if_pos hb] at h
    simp at h
  rw [if_neg hb] at h
  obtain ⟨x0, hx0, h⟩ := bind_ok_iff.mp h
  obtain ⟨pS, hps, h⟩ := bind_ok_iff.mp h
  obtain ⟨x1, hx1, h⟩ := bind_ok_iff.mp h
  obtain ⟨⟨x2, cc⟩, hattn, h⟩ := bind_ok_iff.mp h
  obtain ⟨h0, hh0, h⟩ := bind_ok_iff.mp h
  obtain ⟨h1, hh1, h⟩ := bind_ok_iff.mp h
  obtain ⟨h2, hh2, h⟩ := bind_ok_iff.mp h
  obtain ⟨x3, hx3, h⟩ := bind_ok_iff.mp h
  obtain ⟨lg', hlg, h⟩ := bind_ok_iff.mp h
  simp only [Except.ok.injEq, Prod.mk.injEq] at h
  obtain ⟨rfl, rfl⟩ := h
  obtain ⟨hx0r, -⟩ := matRowselect_ok hx0
  obtain ⟨hx1r, hx1c⟩ := matAdd_ok hx1
  obtain ⟨hcK, hcV, hx2r, -⟩ := cachedAttentionForward_ok hattn
  obtain ⟨hx3r, -⟩ := matAdd_ok hx3
  obtain ⟨hlgr, hlgc⟩ := linearForward_ok hlg
  refine ⟨by omega, by omega, by omega, hlgc⟩

lemma decodeLoop_growth {e : ℚ → ℚ} {sc : ℚ} {model : TransformerParameters}
    {v : ℕ} {temp : ℚ} :
    ∀ {fuel : ℕ} {us : List ℚ} {tokens : List ℕ} {cache : AttentionCache}
      {calls : List DecodeCall} {toks : List ℕ} {cf : AttentionCache},
      decodeLoop e sc model v temp fuel us tokens cache = .ok (calls, toks, cf) →
      cf.K.r = cache.K.r + calls.length ∧ cf.V.r = cache.V.r + calls.length := by
  intro fuel
  induction fuel with
  | zero =>
    intro us tokens cache calls toks cf h
    simp only [decodeLoop, Except.ok.injEq, Prod.mk.injEq] at h
    obtain ⟨rfl, -, rfl⟩ := h
    simp
  | succ n ih =>
    intro us tokens cache calls toks cf h
    rw [decodeLoop] at h
    cases htf : transformerForwardCached e sc
        ⟨1, 1, [nget tokens ((tokens.length + 4294967295) % 4294967296)]⟩ model cache
        ((tokens.length + 4294967295) % 4294967296) with
    | error er => rw [htf] at h; simp at h
    | ok lc =>
      obtain ⟨logits, cache'⟩ := lc
      rw [htf] at h
      obtain ⟨hK, hV, -, -⟩ := transformerForwardCached_ok htf
      dsimp only at hK hV
      dsimp only at h
      split_ifs at h with hstop
      · simp only [Except.ok.injEq, Prod.mk.injEq] at h
        obtain ⟨rfl, -, rfl⟩ := h
        constructor <;> simp <;> omega
      · cases hrec : decodeLoop e sc model v temp n us.tail
            (tokens ++ [(sampleFromLogits e logits.data v temp (us.headD 0) true).1]) cache' with
        | error er => rw [hrec] at h; simp at h
        | ok res =>
          obtain ⟨cs, ts, c2⟩ := res
          rw [hrec] at h
          simp only [Except.ok.injEq, Prod.mk.injEq] at h
          obtain ⟨rfl, -, rfl⟩ := h
          obtain ⟨ih1, ih2⟩ := ih hrec
          constructor <;> simp <;> omega

lemma decodeLoop_calls {e : ℚ → ℚ} {sc : ℚ} {model : TransformerParameters}
    {v : ℕ} {temp : ℚ} :
    ∀ {fuel : ℕ} {us : List ℚ} {tokens : List ℕ} {cache : AttentionCache}
      {calls : List DecodeCall} {toks : List ℕ} {cf : AttentionCache},
      decodeLoop e sc model v temp fuel us tokens cache = .ok (calls, toks, cf) →
      cache.K.r = tokens.length → 0 < tokens.length →
      tokens.length + fuel ≤ 4294967296 →
      ∀ cl ∈ calls,
        cl.posArg + 1 = cl.cacheRows ∧
        cl.cacheRows = cl.tokensAtCall.length ∧
        cl.input = ⟨1, 1, [nget cl.tokensAtCall (cl.tokensAtCall.length - 1)]⟩ ∧
        cl.logitsR = 1 ∧ cl.logitsC = model.lm_head.weights.r := by
  intro fuel
  induction fuel with
  | zero =>
    intro us tokens cache calls toks cf h hk hpos hbound
    simp only [decodeLoop, Except.ok.injEq, Prod.mk.injEq] at h
    obtain ⟨rfl, -, -⟩ := h
    simp
  | succ n ih =>
    intro us tokens cache calls toks cf h hk hpos hbound
    rw [decodeLoop] at h
    have hwrap : (tokens.length + 4294967295) % 4294967296 = tokens.length - 1 := by
      omega
    cases htf : transformerForwardCached e sc
        ⟨1, 1, [nget tokens ((tokens.length + 4294967295) % 4294967296)]⟩ model cache
        ((tokens.length + 4294967295) % 4294967296) with
    | error er => rw [htf] at h; simp at h
    | ok lc =>
      obtain ⟨logits, cache'⟩ := lc
      rw [htf] at h
      obtain ⟨hK, hV, hlr, hlc⟩ := transformerForwardCached_ok htf
      dsimp only at hK hV hlr hlc
      have hcall : ∀ cl : DecodeCall,
          cl = ⟨(tokens.length + 4294967295) % 4294967296, cache.K.r,
                ⟨1, 1, [nget tokens ((tokens.length + 4294967295) % 4294967296)]⟩,
                logits.r, logits.c, tokens⟩ →
          cl.posArg + 1 = cl.cacheRows ∧
          cl.cacheRows = cl.tokensAtCall.length ∧
          cl.input = ⟨1, 1, [nget cl.tokensAtCall (cl.tokensAtCall.length - 1)]⟩ ∧
          cl.logitsR = 1 ∧ cl.logitsC = model.lm_head.weights.r := by
        rintro cl rfl
        refine ⟨by simp only [hwrap, hk]; omega, by simp only [hk], ?_, by simpa using hlr, by simpa using hlc⟩
        simp only [hwrap]
      dsimp only at h
      split_ifs at h with hstop
      · simp only [Except.ok.injEq, Prod.mk.injEq] at h
        obtain ⟨rfl, -, -⟩ := h
        intro cl hcl
        simp only [List.mem_singleton] at hcl
        exact hcall cl hcl
      · cases hrec : decodeLoop e sc model v temp n us.tail
            (tokens ++ [(sampleFromLogits e logits.data v temp (us.headD 0) true).1]) cache' with
        | error er => rw [hrec] at h; simp at h
        | ok res =>
          obtain ⟨cs, ts, c2⟩ := res
          rw [hrec] at h
          simp only [Except.ok.injEq, Prod.mk.injEq] at h
          obtain ⟨rfl, -, -⟩ := h
          intro cl hcl
          rcases List.mem_cons.mp hcl with hcl | hcl
          · exact hcall cl hcl
          · refine ih hrec ?_ ?_ ?_ cl hcl
            · simp only [List.length_append, List.length_cons, List.length_nil]
              omega
            · simp
            · simp only [List.length_append, List.length_cons, List.length_nil]
              omega

lemma generateCore_growth {e : ℚ → ℚ} {sc : ℚ} {model : TransformerParameters}
    {prompt : List ℕ} {maxT v : ℕ} {temp : ℚ} {us : List ℚ}
    {calls : List DecodeCall} {toks : List ℕ} {cf : AttentionCache}
    (h : generateCore e sc model prompt maxT v temp us = .ok (calls, toks, cf))
    (hp : 0 < prompt.length) :
    cf.K.r = prompt.length + calls.length ∧ cf.V.r = prompt.length + calls.length := by
  unfold generateCore at h
  rw [if_neg (by omega)] at h
  cases hpre : transformerForwardCached e sc ⟨1, prompt.length, prompt⟩ model
      (attentionCacheNew model.attn.Wq.weights.r) 0 with
  | error er => rw [hpre] at h; simp at h
  | ok lc =>
    obtain ⟨lg0, cache1⟩ := lc
    rw [hpre] at h
    obtain ⟨hK, hV, -, -⟩ := transformerForwardCached_ok hpre
    obtain ⟨h1, h2⟩ := decodeLoop_growth h
    simp only [attentionCacheNew] at hK hV
    omega

lemma zModel2_prefill :
    transformerForwardCached (fun _ => 1) 1 ⟨1, 2, [0, 0]⟩ zModel2 (attentionCacheNew 2) 0
      = .ok (⟨2, 2, [0, 0, 0, 0]⟩, ⟨⟨2, 2, [0, 0, 0, 0]⟩, ⟨2, 2, [0, 0, 0, 0]⟩⟩) := by
  norm_num [transformerForwardCached, embeddingsForward,
    posSelect, posIndices, matUintNew, matRowselect, nget,
    cachedAttentionForward, attnProj, linearForward, zModel2, zLin2, matTranspose,
    matMul, matAdd, matBinOp, mkChecked, qget, vstack, attentionCacheNew, maskScores,
    maskedSoftmax, mRow, mRowMax, mDen, matScale, relu, matClampMin, qxExp, qxSub, qxMax,
    List.range_succ, List.replicate_succ, List.replicate_zero, Except.map,
    bind, Except.bind]

lemma zModel2_decode :
    transformerForwardCached (fun _ => 1) 1 ⟨1, 1, [0]⟩ zModel2
        ⟨⟨2, 2, [0, 0, 0, 0]⟩, ⟨2, 2, [0, 0, 0, 0]⟩⟩ 1
      = .ok (⟨1, 2, [0, 0]⟩, ⟨⟨3, 2, [0, 0, 0, 0, 0, 0]⟩, ⟨3, 2, [0, 0, 0, 0, 0, 0]⟩⟩) := by
  norm_num [transformerForwardCached, embeddingsForward,
    posSelect, posIndices, matUintNew, matRowselect, nget,
    cachedAttentionForward, attnProj, linearForward, zModel2, zLin2, matTranspose,
    matMul, matAdd, matBinOp, mkChecked, qget, vstack, attentionCacheNew, maskScores,
    maskedSoftmax, mRow, mRowMax, mDen, matScale, relu, matClampMin, qxExp, qxSub, qxMax,
    List.range_succ, List.replicate_succ, List.replicate_zero, Except.map,
    bind, Except.bind]

lemma zModel2_sample : (sampleFromLogits (fun _ => 1) [0, 0] 2 1 0 true).1 = 0 := by
  norm_num [sampleFromLogits, sampleWalk, qget, List.range_succ]

set_option maxHeartbeats 1000000 in
lemma zModel2_run :
    generateCore (fun _ => 1) 1 zModel2 [0, 0] 1 2 1 [0]
      = .ok ([⟨1, 2, ⟨1, 1, [0]⟩, 1, 2, [0, 0]⟩], [0, 0, 0],
          ⟨⟨3, 2, [0, 0, 0, 0, 0, 0]⟩, ⟨3, 2, [0, 0, 0, 0, 0, 0]⟩⟩) := by
  have hloop : decodeLoop (fun _ => 1) 1 zModel2 2 1 1 [0] [0, 0]
      ⟨⟨2, 2, [0, 0, 0, 0]⟩, ⟨2, 2, [0, 0, 0, 0]⟩⟩
      = .ok ([⟨1, 2, ⟨1, 1, [0]⟩, 1, 2, [0, 0]⟩], [0, 0, 0],
          ⟨⟨3, 2, [0, 0, 0, 0, 0, 0]⟩, ⟨3, 2, [0, 0, 0, 0, 0, 0]⟩⟩) := by
    simp only [decodeLoop, List.length_cons, List.length_nil, nget, List.getD]
    norm_num [zModel2_decode, zModel2_sample]
  have hr : zModel2.attn.Wq.weights.r = 2 := rfl
  norm_num [generateCore, hr, zModel2_prefill, hloop]

lemma zAttn1_call :
    cachedAttentionForward (fun _ => 1) 1 ⟨1, 1, [0]⟩ zAttn1 (attentionCacheNew 1)
      = .ok (⟨1, 1, [0]⟩, ⟨⟨1, 1, [0]⟩, ⟨1, 1, [0]⟩⟩) := by
  norm_num [cachedAttentionForward, attnProj, linearForward, zAttn1, matTranspose,
    matMul, matAdd, matBinOp, mkChecked, qget, vstack, attentionCacheNew, maskScores,
    maskedSoftmax, mRow, mRowMax, mDen, matScale, qxExp, qxSub, qxMax,
    List.range_succ, bind, Except.bind]

lemma zAttn2_scores :
    attnScores 1 ⟨2, 2, [0, 0, 0, 0]⟩ zAttn2 (attentionCacheNew 2)
      = .ok ⟨2, 2, [some 0, none, some 0, some 0]⟩ := by
  norm_num [attnScores, attnProj, linearForward, zAttn2, zLin2, matTranspose,
    matMul, matAdd, matBinOp, mkChecked, qget, vstack, attentionCacheNew, maskScores,
    matScale, List.range_succ, bind, Except.bind]

lemma generateCore_calls {e : ℚ → ℚ} {sc : ℚ} {model : TransformerParameters}
    {prompt : List ℕ} {maxT v : ℕ} {temp : ℚ} {us : List ℚ}
    {calls : List DecodeCall} {toks : List ℕ} {cf : AttentionCache}
    (h : generateCore e sc model prompt maxT v temp us = .ok (calls, toks, cf))
    (hp : 0 < prompt.length) (hbound : prompt.length + maxT ≤ 4294967296) :
    ∀ cl ∈ calls,
      cl.posArg + 1 = cl.cacheRows ∧
      cl.cacheRows = cl.tokensAtCall.length ∧
      cl.input = ⟨1, 1, [nget cl.tokensAtCall (cl.tokensAtCall.length - 1)]⟩ ∧
      cl.logitsR = 1 ∧ cl.logitsC = model.lm_head.weights.r := by
  unfold generateCore at h
  rw [if_neg (by omega)] at h
  cases hpre : transformerForwardCached e sc ⟨1, prompt.length, prompt⟩ model
      (attentionCacheNew model.attn.Wq.weights.r) 0 with
  | error er => rw [hpre] at h; simp at h
  | ok lc =>
    obtain ⟨lg0, cache1⟩ := lc
    rw [hpre] at h
    obtain ⟨hK, hV, -, -⟩ := transformerForwardCached_ok hpre
    simp only [attentionCacheNew] at hK
    exact decodeLoop_calls h (by omega) hp hbound


/-! ## Claim theorems -/

/-- C4: the row-wise softmax is claimed to produce, for every matrix
input, rows in `[0, 1]` summing to 1.  On the 1×3 row `[1, 2, 3]` of
`test_softmax_basic` the implementation instead terminates with
`InvalidInput`: `mat_sub` rejects broadcasting the `[1, 1]` row-maximum
matrix against a `[1, 3]` input (its first check requires equal column
counts when the second operand has one row), so no probability row is
produced at all.  The softmax unit tests are disabled in the test suite
for exactly this reason. -/
theorem softmax_single_row_fails :
    softmax (fun _ => 1) ⟨1, 3, [1, 2, 3]⟩ = .error .invalidInput := by decide

/-- C7: `sample_from_logits` never writes through the caller's logits
buffer — it works in the separately allocated probability scratch buffer —
so for every logits row, vocabulary size, temperature, PRNG draw, and
allocation outcome the buffer threaded through the call comes back
unchanged. -/
theorem sampleFromLogits_preserves_logits (e : ℚ → ℚ) (logits : List ℚ)
    (vocabSize : ℕ) (temperature u : ℚ) (allocOk : Bool) :
    (sampleFromLogits e logits vocabSize temperature u allocOk).2 = logits := by
  cases allocOk <;> rfl

/-- C8: `mat_new(r, c)` fails with `InvalidInput` exactly when `r = 0` or
`c = 0`, while the empty-cache constructor is still able to produce the
`(0, C)` empty matrices required by the cache's initial state (it builds
them directly rather than through the checked allocator). -/
theorem matNew_zero_dims_empty_cache :
    (∀ r c : ℕ, matNew r c = .error .invalidInput ↔ r = 0 ∨ c = 0) ∧
    (∀ embed : ℕ,
      (attentionCacheNew embed).K.r = 0 ∧ (attentionCacheNew embed).K.c = embed ∧
      (attentionCacheNew embed).V.r = 0 ∧ (attentionCacheNew embed).V.c = embed) := by
  constructor
  · intro r c
    unfold matNew
    rw [mkChecked_err]
    simp
  · intro embed
    exact ⟨rfl, rfl, rfl, rfl⟩

/-- C9: `mat_rowselect` fails with `InvalidInput` whenever the number of
requested indices exceeds the source row count, even when every
individual index is in range; consequently an embedding lookup for a
token sequence longer than the vocabulary always fails, so gathering with
repeated indices is not generally available. -/
theorem rowselect_too_many_indices (m : Mat ℚ) (idx : Mat ℕ)
    (h1 : idx.r = 1) (hgt : m.r < idx.c)
    (hin : ∀ i, i < idx.c → nget idx.data i < m.r) :
    matRowselect m idx = .error .invalidInput ∧
    ∀ (p : EmbeddingsParameters) (tok : Mat ℕ), tok.r = 1 →
      p.weight_matrix.r < tok.c → embeddingsForward tok p = .error .invalidInput := by
  constructor
  · unfold matRowselect
    rw [if_neg (by omega), if_pos hgt]
  · intro p tok ht1 htc
    unfold embeddingsForward matRowselect
    rw [if_neg (by omega), if_pos htc]

/-- Witness for C9: a 2-row matrix gathered with the three in-range
indices `[0, 0, 1]` (note the repetition) fails. -/
theorem rowselect_too_many_indices_witness :
    (⟨1, 3, [0, 0, 1]⟩ : Mat ℕ).r = 1 ∧
    (⟨2, 1, [5, 6]⟩ : Mat ℚ).r < (⟨1, 3, [0, 0, 1]⟩ : Mat ℕ).c ∧
    (∀ i, i < (⟨1, 3, [0, 0, 1]⟩ : Mat ℕ).c →
      nget (⟨1, 3, [0, 0, 1]⟩ : Mat ℕ).data i < (⟨2, 1, [5, 6]⟩ : Mat ℚ).r) ∧
    (matRowselect ⟨2, 1, [5, 6]⟩ ⟨1, 3, [0, 0, 1]⟩ = .error .invalidInput ∧
      ∀ (p : EmbeddingsParameters) (tok : Mat ℕ), tok.r = 1 →
        p.weight_matrix.r < tok.c → embeddingsForward tok p = .error .invalidInput) :=
  ⟨rfl, by decide, by decide,
    rowselect_too_many_indices ⟨2, 1, [5, 6]⟩ ⟨1, 3, [0, 0, 1]⟩ rfl (by decide) (by decide)⟩

/-- C10: when the probability-buffer allocation inside
`sample_from_logits` fails, the function returns token index 0 with the
buffer untouched and reports no error; in particular the result is the
same for every logits row, temperature, and PRNG draw, instead of the
fatal `MemoryError` used elsewhere for allocation failure. -/
theorem sampleFromLogits_alloc_failure (e : ℚ → ℚ) (logits : List ℚ)
    (vocabSize : ℕ) (temperature u : ℚ) :
    sampleFromLogits e logits vocabSize temperature u false = (0, logits) := rfl



/-- C5: the positional-embedding step of a forward call with `n` tokens
starting at absolute position `pos` selects rows `pos .. pos + n` of the
positional-embedding matrix, and fails with `InvalidInput` exactly when
`pos + n` exceeds `max_seq_len` (the row count of `pos_embed`). -/
theorem posSelect_exact_bounds (P : Mat ℚ) (pos n : ℕ) (hn : 0 < n) (hc : 0 < P.c) :
    (P.r < pos + n → posSelect P pos n = .error .invalidInput) ∧
    (pos + n ≤ P.r → ∃ m, posSelect P pos n = .ok m ∧ m.r = n ∧ m.c = P.c ∧
      ∀ i j, i < n → j < P.c →
        qget m.data (i * P.c + j) = qget P.data ((pos + i) * P.c + j)) := by
  have hidx : posIndices pos n = .ok ⟨1, n, (List.range n).map (fun i => pos + i)⟩ := by
    unfold posIndices matUintNew mkChecked
    rw [if_neg one_ne_zero, if_neg (by omega)]
    rfl
  have hps : posSelect P pos n
      = matRowselect P ⟨1, n, (List.range n).map (fun i => pos + i)⟩ := by
    unfold posSelect
    rw [hidx]
    rfl
  rw [hps]
  unfold matRowselect
  rw [if_neg (by simp)]
  dsimp only
  constructor
  · intro hover
    by_cases hcase : P.r < n
    · rw [if_pos hcase]
    · rw [if_neg hcase, if_pos ?_]
      simp only [List.any_eq_true, List.mem_range, decide_eq_true_eq]
      refine ⟨n - 1, by omega, ?_⟩
      rw [nget, getD_range_map _ _ _ _ (by omega)]
      omega
  · intro hok
    rw [if_neg (by omega), if_neg ?hany]
    case hany =>
      simp only [List.any_eq_true, List.mem_range, decide_eq_true_eq, not_exists, not_and]
      intro i hi
      rw [nget, getD_range_map _ _ _ _ hi]
      omega
    refine ⟨⟨n, P.c, (List.range (n * P.c)).map (fun t =>
        qget P.data (nget ((List.range n).map (fun i => pos + i)) (t / P.c) * P.c + t % P.c))⟩,
      ?_, rfl, rfl, ?_⟩
    · unfold mkChecked
      rw [if_neg (by omega), if_neg (by omega)]
    · intro i j hi hj
      rw [qget, getD_range_map _ _ _ _ (index_lt i j n P.c hi hj)]
      rw [flat_div i j P.c hj, flat_mod i j P.c hj]
      rw [nget, getD_range_map _ _ _ _ hi]

/-- Witness for C5: a 4×2 positional-embedding matrix: selecting 2 rows
from position 1 succeeds, and the theorem's two directions apply at this
input, where position 3 with 2 rows would overflow `max_seq_len = 4`. -/
theorem posSelect_exact_bounds_witness :
    0 < 2 ∧ 0 < (⟨4, 2, [1, 2, 3, 4, 5, 6, 7, 8]⟩ : Mat ℚ).c ∧
    (((⟨4, 2, [1, 2, 3, 4, 5, 6, 7, 8]⟩ : Mat ℚ).r < 3 + 2 →
        posSelect ⟨4, 2, [1, 2, 3, 4, 5, 6, 7, 8]⟩ 3 2 = .error .invalidInput) ∧
      (3 + 2 ≤ (⟨4, 2, [1, 2, 3, 4, 5, 6, 7, 8]⟩ : Mat ℚ).r →
        ∃ m, posSelect ⟨4, 2, [1, 2, 3, 4, 5, 6, 7, 8]⟩ 3 2 = .ok m ∧
          m.r = 2 ∧ m.c = (⟨4, 2, [1, 2, 3, 4, 5, 6, 7, 8]⟩ : Mat ℚ).c ∧
          ∀ i j, i < 2 → j < (⟨4, 2, [1, 2, 3, 4, 5, 6, 7, 8]⟩ : Mat ℚ).c →
            qget m.data (i * (⟨4, 2, [1, 2, 3, 4, 5, 6, 7, 8]⟩ : Mat ℚ).c + j)
              = qget (⟨4, 2, [1, 2, 3, 4, 5, 6, 7, 8]⟩ : Mat ℚ).data
                  ((3 + i) * (⟨4, 2, [1, 2, 3, 4, 5, 6, 7, 8]⟩ : Mat ℚ).c + j))) :=
  ⟨by decide, by decide,
    posSelect_exact_bounds ⟨4, 2, [1, 2, 3, 4, 5, 6, 7, 8]⟩ 3 2 (by decide) (by decide)⟩



lemma qxExp_nonneg {e : ℚ → ℚ} (he : ∀ q, 0 < e q) : ∀ v : QX, 0 ≤ qxExp e v
  | none => le_refl 0
  | some x => (he x).le

lemma foldl_qxMax_acc_some :
    ∀ (l : List QX) (acc : QX), acc ≠ none → l.foldl qxMax acc ≠ none := by
  intro l
  induction l with
  | nil => intro acc h; exact h
  | cons a t ih =>
    intro acc h
    refine ih (qxMax acc a) ?_
    cases acc with
    | none => exact absurd rfl h
    | some x => cases a <;> simp [qxMax]

lemma foldl_qxMax_mem_some :
    ∀ (l : List QX) (acc : QX) (v : ℚ), some v ∈ l → l.foldl qxMax acc ≠ none := by
  intro l
  induction l with
  | nil => intro acc v h; simp at h
  | cons a t ih =>
    intro acc v h
    rcases List.mem_cons.mp h with h | h
    · subst h
      refine foldl_qxMax_acc_some t (qxMax acc (some v)) ?_
      cases acc <;> simp [qxMax]
    · exact ih (qxMax acc a) v h

/-- C2: in the cached attention forward pass, a query at local row `i`
places a pre-softmax score of negative infinity on every key column
`j > t + i` (with `t` the number of cached rows), so the corresponding
softmax weight is 0; the row's softmax denominator is nevertheless
strictly positive, the diagonal entry staying finite. -/
theorem causal_mask_zero_weight (e : ℚ → ℚ) (sc : ℚ) (x : Mat ℚ)
    (ap : SelfAttentionParameters) (cache : AttentionCache) (S : Mat QX)
    (hS : attnScores sc x ap cache = .ok S) (he : ∀ q, 0 < e q)
    (i j : ℕ) (hi : i < x.r) (hj : j < cache.K.r + x.r)
    (hmask : cache.K.r + i < j) :
    S.data.getD (i * S.c + j) none = none ∧
    qget (maskedSoftmax e S).data (i * S.c + j) = 0 ∧
    0 < mDen e S i := by
  unfold attnScores at hS
  obtain ⟨⟨q, kf, vf⟩, hproj, hS⟩ := bind_ok_iff.mp hS
  obtain ⟨kt, hkt, hS⟩ := bind_ok_iff.mp hS
  obtain ⟨s, hmul, hS⟩ := bind_ok_iff.mp hS
  simp only [Except.ok.injEq] at hS
  obtain ⟨hqr, hkfr, -⟩ := attnProj_ok hproj
  obtain ⟨hktr, hktc, -⟩ := matTranspose_ok hkt
  obtain ⟨-, hsr, hsc, -⟩ := matMul_ok hmul
  subst hS
  have hSc : (maskScores cache.K.r (matScale sc s)).c = s.c := rfl
  have hSr : (maskScores cache.K.r (matScale sc s)).r = s.r := rfl
  have hc2 : s.c = cache.K.r + x.r := by omega
  have hir : i < s.r := by omega
  have hjc : j < s.c := by omega
  have h1 : (maskScores cache.K.r (matScale sc s)).data.getD
      (i * (maskScores cache.K.r (matScale sc s)).c + j) none = none := by
    rw [hSc]
    show ((List.range ((matScale sc s).r * (matScale sc s).c)).map _).getD _ _ = _
    rw [getD_range_map _ _ _ _ (by exact index_lt i j s.r s.c hir hjc)]
    dsimp only [matScale]
    rw [flat_div i j s.c hjc, flat_mod i j s.c hjc]
    rw [if_pos (by omega)]
  refine ⟨h1, ?_, ?_⟩
  · rw [hSc] at h1 ⊢
    show qget ((List.range _).map _) _ = 0
    rw [qget, getD_range_map _ _ _ _ (by exact index_lt i j s.r s.c hir hjc)]
    rw [hSc, h1]
    simp [qxSub, qxExp]
  · have hd : cache.K.r + i < s.c := by omega
    have hfin : (maskScores cache.K.r (matScale sc s)).data.getD
        (i * s.c + (cache.K.r + i)) none
        = some (qget (matScale sc s).data (i * s.c + (cache.K.r + i))) := by
      show ((List.range ((matScale sc s).r * (matScale sc s).c)).map _).getD _ _ = _
      rw [getD_range_map _ _ _ _ (by exact index_lt i _ s.r s.c hir hd)]
      dsimp only [matScale]
      rw [flat_div i _ s.c hd, flat_mod i _ s.c hd]
      rw [if_neg (by omega)]
    have hmem : some (qget (matScale sc s).data (i * s.c + (cache.K.r + i)))
        ∈ mRow (maskScores cache.K.r (matScale sc s)) i := by
      unfold mRow
      rw [hSc]
      refine List.mem_map.mpr ⟨cache.K.r + i, List.mem_range.mpr hd, ?_⟩
      exact hfin
    have hmx : mRowMax (maskScores cache.K.r (matScale sc s)) i ≠ none :=
      foldl_qxMax_mem_some _ none _ hmem
    obtain ⟨mx, hmxeq⟩ := Option.ne_none_iff_exists'.mp hmx
    unfold mDen
    unfold mRow
    rw [hSc, List.map_map, sum_range_map]
    refine Finset.sum_pos' (fun j' _ => qxExp_nonneg he _) ⟨cache.K.r + i, Finset.mem_range.mpr hd, ?_⟩
    show 0 < qxExp e (qxSub ((maskScores cache.K.r (matScale sc s)).data.getD
      (i * (maskScores cache.K.r (matScale sc s)).c + (cache.K.r + i)) none)
      (mRowMax (maskScores cache.K.r (matScale sc s)) i))
    rw [hSc, hfin, hmxeq]
    exact he _



/-- Witness for C2: the zero two-token attention call on an empty cache:
entry `(0, 1)` of the masked scores is negative infinity and its softmax
weight is 0. -/
theorem causal_mask_zero_weight_witness :
    attnScores 1 ⟨2, 2, [0, 0, 0, 0]⟩ zAttn2 (attentionCacheNew 2)
      = .ok ⟨2, 2, [some 0, none, some 0, some 0]⟩ ∧
    (∀ q : ℚ, 0 < (1 : ℚ)) ∧
    0 < (⟨2, 2, [0, 0, 0, 0]⟩ : Mat ℚ).r ∧
    1 < (attentionCacheNew 2).K.r + (⟨2, 2, [0, 0, 0, 0]⟩ : Mat ℚ).r ∧
    (attentionCacheNew 2).K.r + 0 < 1 ∧
    ((⟨2, 2, [some 0, none, some 0, some 0]⟩ : Mat QX).data.getD
        (0 * (⟨2, 2, [some 0, none, some 0, some 0]⟩ : Mat QX).c + 1) none = none ∧
      qget (maskedSoftmax (fun _ => 1) ⟨2, 2, [some 0, none, some 0, some 0]⟩).data
        (0 * (⟨2, 2, [some 0, none, some 0, some 0]⟩ : Mat QX).c + 1) = 0 ∧
      0 < mDen (fun _ => 1) ⟨2, 2, [some 0, none, some 0, some 0]⟩ 0) :=
  ⟨zAttn2_scores, fun _ => one_pos, by decide, by decide, by decide,
    causal_mask_zero_weight (fun _ => 1) 1 ⟨2, 2, [0, 0, 0, 0]⟩ zAttn2
      (attentionCacheNew 2) ⟨2, 2, [some 0, none, some 0, some 0]⟩
      zAttn2_scores (fun _ => one_pos) 0 1 (by decide) (by decide) (by decide)⟩

lemma linearForward_entry {X : Mat ℚ} {pl : LinearParameters} {L : Mat ℚ}
    (hL : linearForward X pl = .ok L) (hb : pl.bias.r = 1)
    {i j : ℕ} (hi : i < X.r) (hj : j < pl.weights.r) :
    L.r = X.r ∧ L.c = pl.weights.r ∧
    qget L.data (i * L.c + j) =
      (∑ k ∈ Finset.range X.c,
        qget X.data (i * X.c + k) * qget pl.weights.data (j * pl.weights.c + k)) +
      qget pl.bias.data j := by
  unfold linearForward at hL
  obtain ⟨wt, hwt, hL⟩ := bind_ok_iff.mp hL
  obtain ⟨prod, hmul, hadd⟩ := bind_ok_iff.mp hL
  obtain ⟨hwtr, hwtc, hwtdata⟩ := matTranspose_ok hwt
  obtain ⟨hxc, hpr, hpc, hpdata⟩ := matMul_ok hmul
  obtain ⟨hLr, hLc⟩ := matAdd_ok hadd
  have hjwt : j < wt.c := by omega
  have hprodentry : qget prod.data (i * prod.c + j) =
      ∑ k ∈ Finset.range X.c,
        qget X.data (i * X.c + k) * qget pl.weights.data (j * pl.weights.c + k) := by
    rw [hpdata, hpc, qget,
      getD_range_map _ _ _ _ (index_lt i j X.r wt.c (by omega) hjwt),
      flat_div i j wt.c hjwt, flat_mod i j wt.c hjwt, sum_range_map]
    refine Finset.sum_congr rfl ?_
    intro k hk
    rw [Finset.mem_range] at hk
    have hkw : k < pl.weights.c := by omega
    rw [hwtdata, hwtc, qget, qget,
      getD_range_map _ _ _ _ (index_lt k j pl.weights.c pl.weights.r (by omega) hj),
      flat_mod k j pl.weights.r hj, flat_div k j pl.weights.r hj]
  unfold matAdd matBinOp at hadd
  split_ifs at hadd with c1 c2 c3 c4 c5 c6 <;>
    first
      | simp at hadd
      | skip
  · -- elementwise branch: both shapes equal, so the bias has X.r = 1 rows
    obtain ⟨-, -, rfl⟩ := mkChecked_ok.mp hadd
    have hr1 : X.r = 1 := by omega
    have hi0 : i = 0 := by omega
    subst hi0
    refine ⟨by omega, by omega, ?_⟩
    dsimp only
    simp only [Nat.zero_mul, Nat.zero_add] at hprodentry ⊢
    have hjb : j < prod.r * prod.c := by
      have : prod.r * prod.c = prod.c := by rw [hpr, hr1, Nat.one_mul]
      omega
    rw [qget, getD_range_map _ _ _ _ hjb, hprodentry]
  · -- row-broadcast branch
    obtain ⟨-, -, rfl⟩ := mkChecked_ok.mp hadd
    refine ⟨by omega, by omega, ?_⟩
    dsimp only
    have hjp : j < prod.c := by omega
    rw [qget, getD_range_map _ _ _ _ (index_lt i j prod.r prod.c (by omega) hjp),
      flat_mod i j prod.c hjp, ← hprodentry]

/-- C6: for a loaded (weight-tied) model the language-model head's weight
matrix is bit-identical to the token-embedding matrix — it is never read
from disk but produced by `mat_copy` of `token_embed` — and consequently
the logits of the LM head on a hidden-state matrix `X` equal
`X · token_embedᵀ + lm_head_bias`, entry by entry. -/
theorem weight_tying_logits (env : WFile → Mat ℚ) (p : TransformerParameters)
    (hload : loadModelWeights env = .ok p) (hb : p.lm_head.bias.r = 1)
    (X L : Mat ℚ) (hL : linearForward X p.lm_head = .ok L)
    (i j : ℕ) (hi : i < X.r) (hj : j < p.lm_head.weights.r) :
    p.lm_head.weights = p.token_embed.weight_matrix ∧
    L.r = X.r ∧ L.c = p.token_embed.weight_matrix.r ∧
    qget L.data (i * L.c + j) =
      (∑ k ∈ Finset.range X.c,
        qget X.data (i * X.c + k) *
          qget p.token_embed.weight_matrix.data
            (j * p.token_embed.weight_matrix.c + k)) +
      qget p.lm_head.bias.data j := by
  have hW : p.lm_head.weights = p.token_embed.weight_matrix := by
    unfold loadModelWeights at hload
    obtain ⟨tied, htied, hpok⟩ := bind_ok_iff.mp hload
    simp only [Except.ok.injEq] at hpok
    subst hpok
    obtain ⟨-, -, rfl⟩ := mkChecked_ok.mp htied
    show Mat.mk _ _ _ = loadWeightMatrix env .tokenEmbed
    have hdata : ∀ t ∈ List.range ((loadWeightMatrix env .tokenEmbed).r *
        (loadWeightMatrix env .tokenEmbed).c),
        qget (loadWeightMatrix env .tokenEmbed).data t
          = qget (env .tokenEmbed).data t := by
      intro t ht
      rw [List.mem_range] at ht
      have htt : t < (env WFile.tokenEmbed).r * (env WFile.tokenEmbed).c := ht
      show ((List.range ((env WFile.tokenEmbed).r * (env WFile.tokenEmbed).c)).map
        (fun k => qget (env WFile.tokenEmbed).data k)).getD t 0
        = qget (env WFile.tokenEmbed).data t
      rw [getD_range_map _ _ _ _ htt]
    rw [List.map_congr_left hdata]
    rfl
  have hmain := linearForward_entry hL hb hi hj
  rw [hW] at hmain
  exact ⟨hW, hmain.1, hmain.2.1, hmain.2.2⟩



/-- Witness for C6: loading the one-file directory `wEnv` ties the head to
the token embedding; on the 1×1 hidden state `[5]` the head produces
`5 * 2 + 2 = 12`. -/
theorem weight_tying_logits_witness :
    loadModelWeights wEnv = .ok wModel ∧
    wModel.lm_head.bias.r = 1 ∧
    linearForward ⟨1, 1, [5]⟩ wModel.lm_head = .ok ⟨1, 1, [12]⟩ ∧
    0 < (⟨1, 1, [5]⟩ : Mat ℚ).r ∧ 0 < wModel.lm_head.weights.r ∧
    (wModel.lm_head.weights = wModel.token_embed.weight_matrix ∧
      (⟨1, 1, [12]⟩ : Mat ℚ).r = (⟨1, 1, [5]⟩ : Mat ℚ).r ∧
      (⟨1, 1, [12]⟩ : Mat ℚ).c = wModel.token_embed.weight_matrix.r ∧
      qget (⟨1, 1, [12]⟩ : Mat ℚ).data (0 * (⟨1, 1, [12]⟩ : Mat ℚ).c + 0) =
        (∑ k ∈ Finset.range (⟨1, 1, [5]⟩ : Mat ℚ).c,
          qget (⟨1, 1, [5]⟩ : Mat ℚ).data (0 * (⟨1, 1, [5]⟩ : Mat ℚ).c + k) *
            qget wModel.token_embed.weight_matrix.data
              (0 * wModel.token_embed.weight_matrix.c + k)) +
        qget wModel.lm_head.bias.data 0) :=
  ⟨by decide, rfl,
    by norm_num [linearForward, wModel, matTranspose, matMul, matAdd, matBinOp,
      mkChecked, qget, List.range_succ, bind, Except.bind],
    by decide, by decide,
    weight_tying_logits wEnv wModel (by decide) rfl ⟨1, 1, [5]⟩ ⟨1, 1, [12]⟩
      (by norm_num [linearForward, wModel, matTranspose, matMul, matAdd, matBinOp,
        mkChecked, qget, List.range_succ, bind, Except.bind])
      0 0 (by decide) (by decide)⟩

/-- C1: every call of the cached attention forward pass on an input of
`x.r` rows against a cache of `t` rows leaves the cache with
`K.rows = V.rows = t + x.r`; consequently a generation run whose prefill
ingests a prompt of length `p` and whose decode phase performs `k`
transformer calls ends with exactly `p + k` rows in both `K` and `V`. -/
theorem cache_growth (e : ℚ → ℚ) (sc : ℚ) (x : Mat ℚ)
    (ap : SelfAttentionParameters) (cache : AttentionCache)
    (out : Mat ℚ) (cache' : AttentionCache)
    (hcall : cachedAttentionForward e sc x ap cache = .ok (out, cache'))
    (model : TransformerParameters) (prompt : List ℕ) (maxT v : ℕ) (temp : ℚ)
    (us : List ℚ) (calls : List DecodeCall) (toks : List ℕ) (cf : AttentionCache)
    (hp : 0 < prompt.length)
    (hgen : generateCore e sc model prompt maxT v temp us = .ok (calls, toks, cf)) :
    (cache'.K.r = cache.K.r + x.r ∧ cache'.V.r = cache.V.r + x.r) ∧
    (cf.K.r = prompt.length + calls.length ∧ cf.V.r = prompt.length + calls.length) := by
  obtain ⟨h1, h2, -, -⟩ := cachedAttentionForward_ok hcall
  exact ⟨⟨h1, h2⟩, generateCore_growth hgen hp⟩

/-- Witness for C1: a single 1×1 attention call on an empty cache grows it
to one row, and the two-token-prompt, one-decode-step run of the zero
model ends with `2 + 1 = 3` cached rows. -/
theorem cache_growth_witness :
    cachedAttentionForward (fun _ => 1) 1 ⟨1, 1, [0]⟩ zAttn1 (attentionCacheNew 1)
      = .ok (⟨1, 1, [0]⟩, ⟨⟨1, 1, [0]⟩, ⟨1, 1, [0]⟩⟩) ∧
    0 < ([0, 0] : List ℕ).length ∧
    generateCore (fun _ => 1) 1 zModel2 [0, 0] 1 2 1 [0]
      = .ok ([⟨1, 2, ⟨1, 1, [0]⟩, 1, 2, [0, 0]⟩], [0, 0, 0],
          ⟨⟨3, 2, [0, 0, 0, 0, 0, 0]⟩, ⟨3, 2, [0, 0, 0, 0, 0, 0]⟩⟩) ∧
    (((⟨⟨1, 1, [0]⟩, ⟨1, 1, [0]⟩⟩ : AttentionCache).K.r
        = (attentionCacheNew 1).K.r + (⟨1, 1, [0]⟩ : Mat ℚ).r ∧
      (⟨⟨1, 1, [0]⟩, ⟨1, 1, [0]⟩⟩ : AttentionCache).V.r
        = (attentionCacheNew 1).V.r + (⟨1, 1, [0]⟩ : Mat ℚ).r) ∧
      ((⟨⟨3, 2, [0, 0, 0, 0, 0, 0]⟩, ⟨3, 2, [0, 0, 0, 0, 0, 0]⟩⟩ : AttentionCache).K.r
          = ([0, 0] : List ℕ).length
            + [(⟨1, 2, ⟨1, 1, [0]⟩, 1, 2, [0, 0]⟩ : DecodeCall)].length ∧
        (⟨⟨3, 2, [0, 0, 0, 0, 0, 0]⟩, ⟨3, 2, [0, 0, 0, 0, 0, 0]⟩⟩ : AttentionCache).V.r
          = ([0, 0] : List ℕ).length
            + [(⟨1, 2, ⟨1, 1, [0]⟩, 1, 2, [0, 0]⟩ : DecodeCall)].length)) :=
  ⟨zAttn1_call, by decide, zModel2_run,
    cache_growth (fun _ => 1) 1 ⟨1, 1, [0]⟩ zAttn1 (attentionCacheNew 1)
      ⟨1, 1, [0]⟩ ⟨⟨1, 1, [0]⟩, ⟨1, 1, [0]⟩⟩ zAttn1_call
      zModel2 [0, 0] 1 2 1 [0] [⟨1, 2, ⟨1, 1, [0]⟩, 1, 2, [0, 0]⟩] [0, 0, 0]
      ⟨⟨3, 2, [0, 0, 0, 0, 0, 0]⟩, ⟨3, 2, [0, 0, 0, 0, 0, 0]⟩⟩
      (by decide) zModel2_run⟩

/-- Counterexample for C3: with the zero model, prompt `[0, 0]` and one
decode step, the single decode-phase transformer call receives position
argument 1 while the cache holds 2 rows — the position argument is not the
cache row count. -/
theorem decode_pos_counterexample :
    (generateCore (fun _ => 1) 1 zModel2 [0, 0] 1 2 1 [0]).map
        (fun res => res.1.map (fun cl => (cl.posArg, cl.cacheRows))) = .ok [(1, 2)] ∧
    (1 : ℕ) ≠ 2 := by
  constructor
  · rw [zModel2_run]
    rfl
  · decide

/-- C3 (amended): in every decode iteration of the generation loop the
transformer is invoked with position argument `cache.K.rows - 1` (one less
than the current cache row count — the absolute position of the re-fed
last token), with a 1×1 index tensor holding the last emitted token, and
it returns a `[1, vocab]` logits row. -/
theorem decode_call_shape (e : ℚ → ℚ) (sc : ℚ) (model : TransformerParameters)
    (prompt : List ℕ) (maxT v : ℕ) (temp : ℚ) (us : List ℚ)
    (calls : List DecodeCall) (toks : List ℕ) (cf : AttentionCache)
    (hp : 0 < prompt.length) (hbound : prompt.length + maxT ≤ 4294967296)
    (hgen : generateCore e sc model prompt maxT v temp us = .ok (calls, toks, cf)) :
    ∀ cl ∈ calls,
      cl.posArg + 1 = cl.cacheRows ∧
      cl.cacheRows = cl.tokensAtCall.length ∧
      cl.input = ⟨1, 1, [nget cl.tokensAtCall (cl.tokensAtCall.length - 1)]⟩ ∧
      cl.logitsR = 1 ∧ cl.logitsC = model.lm_head.weights.r :=
  generateCore_calls hgen hp hbound

/-- Witness for C3 (amended): the zero-model run satisfies the amended
contract: its one decode call has position argument `2 - 1 = 1`, a 1×1
input holding the last token, and a `[1, 2]` logits row. -/
theorem decode_call_shape_witness :
    0 < ([0, 0] : List ℕ).length ∧
    ([0, 0] : List ℕ).length + 1 ≤ 4294967296 ∧
    generateCore (fun _ => 1) 1 zModel2 [0, 0] 1 2 1 [0]
      = .ok ([⟨1, 2, ⟨1, 1, [0]⟩, 1, 2, [0, 0]⟩], [0, 0, 0],
          ⟨⟨3, 2, [0, 0, 0, 0, 0, 0]⟩, ⟨3, 2, [0, 0, 0, 0, 0, 0]⟩⟩) ∧
    (∀ cl ∈ [(⟨1, 2, ⟨1, 1, [0]⟩, 1, 2, [0, 0]⟩ : DecodeCall)],
      cl.posArg + 1 = cl.cacheRows ∧
      cl.cacheRows = cl.tokensAtCall.length ∧
      cl.input = ⟨1, 1, [nget cl.tokensAtCall (cl.tokensAtCall.length - 1)]⟩ ∧
      cl.logitsR = 1 ∧ cl.logitsC = zModel2.lm_head.weights.r) :=
  ⟨by decide, by decide, zModel2_run,
    decode_call_shape (fun _ => 1) 1 zModel2 [0, 0] 1 2 1 [0]
      [⟨1, 2, ⟨1, 1, [0]⟩, 1, 2, [0, 0]⟩] [0, 0, 0]
      ⟨⟨3, 2, [0, 0, 0, 0, 0, 0]⟩, ⟨3, 2, [0, 0, 0, 0, 0, 0]⟩⟩
      (by decide) (by decide) zModel2_run⟩


end RetroLM
